import Mathlib

/-!
Shallow embedding of `lingua-cli` (src/main.rs): a command-line driver that
gathers text (argument vector, whole stdin, or stdin lines), gates it on a
minimum count of alphabetic characters, submits it to an external language
detector, and formats the results.

The external `lingua` crate is modelled as an abstract `Detector` record of
functions; scores (`f64` used only through `>=` comparisons) are modelled as
`Rat`; Rust `char` is modelled as `Chr`, carrying its UTF-8 byte encoding and
the result of `char::is_alphabetic`; `u8` is modelled as `Fin 256`.
Observable behaviour (stdout records, the stderr note, stdin consumption,
detector construction and invocation) is modelled as a list of `Event`s plus
an `Exit` status; a Rust panic (`expect`, string-slice out of bounds) is
`Exit.panicked`, truncating the event list at the point of the panic.
-/

namespace LinguaCli

/-- Model of a Rust `char`: its UTF-8 byte encoding (nonemptiness is not
needed by any claim so it is not enforced) and the value of
`char::is_alphabetic()` on it. -/
structure Chr where
  bytes : List Nat
  alphabetic : Bool
deriving DecidableEq, Repr

/-- A text unit: the Rust `String`/`&str` contents as a sequence of chars. -/
abbrev Text := List Chr

/-- One entry of a confidence distribution: `(Language, f64)` with the
language rendered through `iso_code_639_1()` and the score as `Rat`. -/
structure ConfidenceEntry where
  lang : String
  score : Rat
deriving DecidableEq, Repr

/-- Model of `lingua::DetectionResult`: a language-tagged byte-offset
segment, as consumed by `print_with_offset`. -/
structure DetectionResult where
  start_index : Nat
  end_index : Nat
  lang : String
deriving DecidableEq, Repr

/-- A supported language as listed by `--list`: its enum ordinal (the
`Ord` used by `languages.sort()`), its ISO 639-1 code and its display name. -/
structure LanguageInfo where
  ord : Nat
  code : String
  name : String
deriving DecidableEq, Repr

/-- The CLI arguments (struct `Args`), field for field.  `minlength` is
`Option<u8>` in the source, so values above 255 are unrepresentable: `clap`
rejects them at argument parsing, which the type `Fin 256` captures. -/
structure Args where
  languages : List String
  per_line : Bool
  parallel : Bool
  list : Bool
  all : Bool
  quick : Bool
  multi : Bool
  confidence : Option Rat
  minlength : Option (Fin 256)
  minimum_relative_distance : Option Rat
  preload : Bool
  delimiter : String
  text : List Text

/-- The external detector (the `lingua` crate), abstracted as the three
entry points the driver calls. -/
structure Detector where
  compute_language_confidence_values : Text → List ConfidenceEntry
  compute_language_confidence_values_in_parallel :
    List Text → List (List ConfidenceEntry)
  detect_multiple_languages_of : Text → List DetectionResult

/-- The process environment: the detector that `builder.build()` yields, the
supported-language table behind `Language::all()`, which ISO 639-1 code
strings parse (`IsoCode639_1::from_str` succeeds), stdin viewed as lines
(`none` = a line that fails to decode) and stdin viewed as one document
(`none` = bytes that are not valid UTF-8). -/
structure World where
  detector : Detector
  allLanguages : List LanguageInfo
  validCode : String → Bool
  stdinLines : List (Option Text)
  stdinDoc : Option Text

/-- One stdout record, structure in place of the delimiter-joined text. -/
inductive OutRec where
  /-- a `--list` line `{code} - {name}` -/
  | listLine (code : String) (name : String)
  /-- qualifying record of `print_confidence_values`: `{lang}{d}{score}` -/
  | entry (lang : String) (score : Rat)
  /-- sentinel `unknown{d}` (no original line attached) -/
  | unknown
  /-- qualifying record of `print_line_with_confidence_values`:
  `{lang}{d}{score}{d}{line}` -/
  | lineEntry (lang : String) (score : Rat) (line : Text)
  /-- sentinel `unknown{d}{d}{line}` -/
  | lineUnknown (line : Text)
  /-- record of `print_with_offset`: `{start}{d}{end}{d}{lang}{d}{substring}`,
  the substring as the sliced byte sequence -/
  | offsetRec (start : Nat) (stop : Nat) (lang : String) (sub : List Nat)
deriving DecidableEq, Repr

/-- An observable step of the process. -/
inductive Event where
  /-- a record printed to stdout -/
  | out (r : OutRec)
  /-- the one `eprintln!` note of the parallel branch -/
  | warn
  /-- stdin consumed to the end (`read_to_end`, or collecting all lines) -/
  | readAllStdin
  /-- one line pulled from stdin in the sequential per-line loop -/
  | readLine
  /-- the detector was built (`builder.build()` ran) -/
  | detectorBuilt
  /-- a single text submitted to the detector
  (`compute_language_confidence_values` or
  `detect_multiple_languages_of`) -/
  | classify (t : Text)
  /-- the whole batch submitted to
  `compute_language_confidence_values_in_parallel` -/
  | batchCall (ts : List Text)
deriving DecidableEq, Repr

/-- Process termination: `std::process::exit`/normal return with a code, or
a panic. -/
inductive Exit where
  | code (n : Nat)
  | panicked
deriving DecidableEq, Repr

/-- Function `long_enough` (main.rs:197-200):
`line.chars().filter(|c| c.is_alphabetic()).count() >= minlength as usize`. -/
def long_enough (line : Text) (minlength : Fin 256) : Bool :=
  (line.filter fun c => c.alphabetic).length ≥ (minlength : Nat)

/-- The number of alphabetic characters of a text (the count that
`long_enough` compares against `minlength`). -/
def alphaCount (line : Text) : Nat :=
  (line.filter fun c => c.alphabetic).length

/-- The gate condition repeated at main.rs:120, 138, 165 and 185:
`args.minlength.is_none() || long_enough(text, args.minlength.unwrap())`. -/
def gatePasses (m : Option (Fin 256)) (text : Text) : Bool :=
  match m with
  | none => true
  | some minlength => long_enough text minlength

/-- Model of `args.text.join(" ")` (main.rs:119): the positional arguments joined
with a single space. -/
def joinArgs (ts : List Text) : Text :=
  List.intercalate [⟨[32], false⟩] ts

/-- Loop of `print_confidence_values` (main.rs:202-221), returning the list of
records it prints.  Faithful to the source: a record is printed only when
`confidence_threshold.is_some() && result.1 >= confidence_threshold.unwrap()`;
the loop breaks after the first iteration unless `all`; `unknown` is printed
iff no iteration printed (`!found`). -/
def pcvLoop (results : List ConfidenceEntry) (t : Option Rat) (all : Bool) :
    List OutRec × Bool :=
  match results with
  | [] => ([], false)
  | r :: rest =>
    let q : Bool :=
      match t with
      | some threshold => r.score ≥ threshold
      | none => false
    let here : List OutRec := if q then [OutRec.entry r.lang r.score] else []
    if all then
      let tail := pcvLoop rest t all
      (here ++ tail.1, q || tail.2)
    else
      (here, q)

/-- Function `print_confidence_values` proper: the loop, then `unknown` iff nothing
was found. -/
def print_confidence_values (results : List ConfidenceEntry) (t : Option Rat)
    (all : Bool) : List OutRec :=
  let run := pcvLoop results t all
  run.1 ++ (if run.2 then [] else [OutRec.unknown])

/-- Function `print_line_with_confidence_values` (main.rs:223-247): per iteration,
either a qualifying record (threshold set and met) or a per-iteration
`unknown{d}{d}{line}` sentinel; break after the first iteration unless
`all`. -/
def print_line_with_confidence_values (line : Text)
    (results : List ConfidenceEntry) (t : Option Rat) (all : Bool) :
    List OutRec :=
  match results with
  | [] => []
  | r :: rest =>
    let q : Bool :=
      match t with
      | some threshold => r.score ≥ threshold
      | none => false
    let here : OutRec :=
      if q then OutRec.lineEntry r.lang r.score line
      else OutRec.lineUnknown line
    if all then here :: print_line_with_confidence_values line rest t all
    else [here]

/-- Total UTF-8 byte length of a text (`str::len` on the original). -/
def byteLen (t : Text) : Nat :=
  (t.map fun c => c.bytes.length).sum

/-- Model of `str::is_char_boundary`: the offset is the byte length of some char
prefix of the text. -/
def isCharBoundary (t : Text) (i : Nat) : Bool :=
  (List.range (t.length + 1)).any fun k => byteLen (t.take k) == i

/-- Rust string slicing `&text[a..b]`: `some` slice of the byte sequence
when `a <= b`, `b` within bounds and both ends on char boundaries, `none`
(a panic) otherwise. -/
def strSlice (t : Text) (a b : Nat) : Option (List Nat) :=
  if a ≤ b ∧ b ≤ byteLen t ∧ isCharBoundary t a ∧ isCharBoundary t b then
    some ((((t.map fun c => c.bytes).flatten).drop a).take (b - a))
  else none

/-- Function `print_with_offset` (main.rs:249-262): one record per
`DetectionResult`, slicing the original text at the segment's byte offsets.
Returns the records printed and whether the slice panicked (a panic stops
the loop, keeping the records already printed). -/
def print_with_offset (results : List DetectionResult) (text : Text) :
    List OutRec × Bool :=
  match results with
  | [] => ([], false)
  | r :: rest =>
    match strSlice text r.start_index r.end_index with
    | none => ([], true)
    | some sub =>
      let tail := print_with_offset rest text
      (OutRec.offsetRec r.start_index r.end_index r.lang sub :: tail.1,
        tail.2)

/-- Insertion step for `languages.sort()`. -/
def insertByOrd (l : LanguageInfo) : List LanguageInfo → List LanguageInfo
  | [] => [l]
  | x :: xs => if l.ord ≤ x.ord then l :: x :: xs else x :: insertByOrd l xs

/-- Model of `languages.sort()` (main.rs:85): sort by the enum `Ord`. -/
def sortLangs : List LanguageInfo → List LanguageInfo
  | [] => []
  | x :: xs => insertByOrd x (sortLangs xs)

/-- The direct-text branch body (main.rs:120-130): gate, then multi-segment
or single-language classification, else the `unknown{d}` sentinel.  Second
component: whether a slice panic occurred. -/
def handleDirect (a : Args) (d : Detector) (text : Text) :
    List Event × Bool :=
  if gatePasses a.minlength text then
    if a.multi then
      let run := print_with_offset (d.detect_multiple_languages_of text) text
      (Event.classify text :: run.1.map Event.out, run.2)
    else
      (Event.classify text ::
        (print_confidence_values (d.compute_language_confidence_values text)
          a.confidence a.all).map Event.out, false)
  else
    ([Event.out OutRec.unknown], false)

/-- The whole-stdin branch body (main.rs:185-193): identical to the
direct-text body except that a gate-rejected text produces NO output at all
(the source has no `else` arm there). -/
def handleWhole (a : Args) (d : Detector) (text : Text) :
    List Event × Bool :=
  if gatePasses a.minlength text then
    if a.multi then
      let run := print_with_offset (d.detect_multiple_languages_of text) text
      (Event.classify text :: run.1.map Event.out, run.2)
    else
      (Event.classify text ::
        (print_confidence_values (d.compute_language_confidence_values text)
          a.confidence a.all).map Event.out, false)
  else
    ([], false)

/-- One sequential per-line iteration body (main.rs:165-176): gate, then
classify-and-print, else the `unknown{d}{d}{line}` sentinel. -/
def perLineSeqHandle (a : Args) (d : Detector) (line : Text) : List Event :=
  if gatePasses a.minlength line then
    Event.classify line ::
      (print_line_with_confidence_values line
        (d.compute_language_confidence_values line) a.confidence
        a.all).map Event.out
  else
    [Event.out (OutRec.lineUnknown line)]

/-- The `filter_map` of the parallel branch (main.rs:133-147): decode
failures dropped; with a minimum length set, lines failing `long_enough`
dropped as well. -/
def parLines (m : Option (Fin 256)) (ls : List (Option Text)) : List Text :=
  ls.filterMap fun x =>
    match x with
    | none => none
    | some line =>
      match m with
      | none => some line
      | some minlength =>
        if long_enough line minlength then some line else none

/-- Function `main` (main.rs:81-195) as a pure function from the arguments and the
environment to the event trace and the exit status. -/
def main (a : Args) (w : World) : List Event × Exit :=
  if a.list then
    ((sortLangs w.allLanguages).map fun l =>
        Event.out (OutRec.listLine l.code l.name),
      Exit.code 0)
  else if a.languages.any fun s => !w.validCode s then
    ([], Exit.panicked)
  else if a.text ≠ [] then
    let run := handleDirect a w.detector (joinArgs a.text)
    (Event.detectorBuilt :: run.1,
      if run.2 then Exit.panicked else Exit.code 0)
  else if a.per_line && a.parallel then
    let lines := parLines a.minlength w.stdinLines
    let results :=
      w.detector.compute_language_confidence_values_in_parallel lines
    (Event.detectorBuilt :: Event.readAllStdin :: Event.batchCall lines ::
      ((if a.minlength.isSome then [Event.warn] else []) ++
        ((lines.zip results).map fun p =>
          (print_line_with_confidence_values p.1 p.2 a.confidence
            a.all).map Event.out).flatten),
      Exit.code 0)
  else if a.per_line then
    (Event.detectorBuilt ::
      (w.stdinLines.map fun x =>
        Event.readLine ::
          (match x with
           | none => []
           | some line => perLineSeqHandle a w.detector line)).flatten,
      Exit.code 0)
  else
    match w.stdinDoc with
    | none => ([Event.detectorBuilt, Event.readAllStdin], Exit.panicked)
    | some text =>
      let run := handleWhole a w.detector text
      (Event.detectorBuilt :: Event.readAllStdin :: run.1,
        if run.2 then Exit.panicked else Exit.code 0)

/-- The texts one event submits to the detector: the payload of a
`classify` event, the members of a `batchCall` batch. -/
def eventUnits : Event → List Text
  | Event.classify t => [t]
  | Event.batchCall ts => ts
  | _ => []

/-- The texts submitted to the detector along an event trace. -/
def classifiedUnits (es : List Event) : List Text :=
  (es.map eventUnits).flatten

/-- Whether an event consumes standard input. -/
def isStdinEvent : Event → Bool
  | Event.readAllStdin => true
  | Event.readLine => true
  | _ => false

/-- Whether an event is a stdout record. -/
def isOutEvent : Event → Bool
  | Event.out _ => true
  | _ => false

/-- The stdout records of an event trace, in order. -/
def outRecs (es : List Event) : List OutRec :=
  es.filterMap fun e =>
    match e with
    | Event.out r => some r
    | _ => none


/-! ## Concrete fixtures for closed evaluations -/

/-- A detector whose single-text distribution is always `[(de, 1)]` and
whose other entry points return nothing. -/
def detDe : Detector :=
  ⟨fun _ => [⟨"de", 1⟩], fun _ => [], fun _ => []⟩

/-- The single character `a` (alphabetic, one UTF-8 byte). -/
def chrA : Chr := ⟨[97], true⟩

/-- Arguments for a plain whole-stdin run with `-M 5` and no other flag. -/
def argsC3 : Args :=
  ⟨[], false, false, false, false, false, false, none, some 5, none, false,
    "\t", []⟩

/-- Environment for `argsC3`: stdin is the one-character document `a`. -/
def worldC3 : World :=
  ⟨detDe, [], fun _ => true, [], some [chrA]⟩

/-- Arguments combining `--multi` with `--per-line` (no positional text). -/
def argsC4 : Args :=
  ⟨[], true, false, false, false, false, true, none, none, none, false,
    "\t", []⟩

/-- Environment for `argsC4`: stdin holds the single line `a`. -/
def worldC4 : World :=
  ⟨detDe, [], fun _ => true, [some [chrA]], none⟩

/-- Arguments carrying direct text `a` together with raised line flags. -/
def argsC5 : Args :=
  ⟨[], true, true, false, false, false, false, none, some 5, none, false,
    "\t", [[chrA]]⟩

/-- Environment for `argsC5` (stdin present but never read). -/
def worldC5 : World :=
  ⟨detDe, [], fun _ => true, [some [chrA]], some [chrA]⟩

/-- Arguments carrying direct text `a` with `-M 1`. -/
def argsC6 : Args :=
  ⟨[], false, false, false, false, false, false, none, some 1, none, false,
    "\t", [[chrA]]⟩

/-! ## Claim theorems -/

/-- Claim C1: the spec says that with `emit-all = false` and no confidence
threshold set, the emitted record is the top-ranked entry, never `unknown`.
The code disagrees: the qualifying branch of `print_confidence_values`
requires `confidence_threshold.is_some()`, so with no threshold the loop
prints nothing and the sentinel `unknown` is emitted even for a non-empty
distribution.  This theorem evaluates the code at the failing input
`D = [(en, 9/10)]`, threshold unset, `all = false`. -/
theorem C1_eval :
    print_confidence_values [⟨"en", 9/10⟩] none false = [OutRec.unknown] := by
  decide

/-- Claim C2: the spec says that with `emit-all = true` and no threshold all
entries are emitted, and that qualifying records and the sentinel never mix.
The code disagrees twice: with no threshold `print_confidence_values` emits
only the sentinel (first conjunct, `D = [(en, 9/10)]`), and with a threshold
set `print_line_with_confidence_values` emits a per-entry sentinel for every
non-qualifying entry, mixing a qualifying record with a sentinel (second
conjunct, `D = [(en, 9/10), (fr, 1/10)]`, threshold `1/2`). -/
theorem C2_eval :
    print_confidence_values [⟨"en", 9/10⟩] none true = [OutRec.unknown]
    ∧ print_line_with_confidence_values [chrA] [⟨"en", 9/10⟩, ⟨"fr", 1/10⟩]
        (some (1/2)) true
      = [OutRec.lineEntry "en" (9/10) [chrA], OutRec.lineUnknown [chrA]] := by
  refine ⟨by decide, ?_⟩
  norm_num [print_line_with_confidence_values]

/-- Claim C3 counterexample: the claim says a minimum-length rejection is
formatted as an `unknown` sentinel record in every sequential mode,
including whole-document stdin.  But in whole-stdin mode (`argsC3`: `-M 5`,
no other flag; stdin the one-character document `a`) the run produces NO
output record at all: the source's whole-stdin branch has no `else` arm for
the gate. -/
theorem C3_counterexample :
    main argsC3 worldC3 = ([Event.detectorBuilt, Event.readAllStdin],
      Exit.code 0)
    ∧ outRecs (main argsC3 worldC3).1 = [] := by
  decide

/-- Claim C4 counterexample: the claim says multi-segment mode combined
with per-line mode is a fatal startup error, reported with non-zero exit
before any I/O.  But with `argsC4` (`--multi --per-line`, one stdin line
`a`) the run reads stdin, classifies the line, emits a record and exits
with code 0: the source never checks the combination, it silently ignores
`--multi` in per-line mode. -/
theorem C4_counterexample :
    main argsC4 worldC4 =
      ([Event.detectorBuilt, Event.readLine, Event.classify [chrA],
        Event.out (OutRec.lineUnknown [chrA])], Exit.code 0) := by
  decide

/-- The `Args` value with `multi` forced off and every other field unchanged. -/
def withMultiOff (a : Args) : Args :=
  ⟨a.languages, a.per_line, a.parallel, a.list, a.all, a.quick, false,
    a.confidence, a.minlength, a.minimum_relative_distance, a.preload,
    a.delimiter, a.text⟩

/-- Claim C3 (amended): a minimum-length rejection is never an error: it is
formatted as the `unknown{d}` sentinel in direct-text mode and as the
`unknown{d}{d}{line}` sentinel in per-line sequential mode, while in
whole-document stdin mode the rejected document produces no output at all,
and in per-line parallel mode the rejected line is dropped from the batch. -/
theorem C3_amended (a : Args) (w : World)
    (hl : a.list = false)
    (hv : (a.languages.any fun s => !w.validCode s) = false) :
    (a.text ≠ [] → gatePasses a.minlength (joinArgs a.text) = false →
      outRecs (main a w).1 = [OutRec.unknown])
    ∧ (∀ d line, gatePasses a.minlength line = false →
        perLineSeqHandle a d line = [Event.out (OutRec.lineUnknown line)])
    ∧ (∀ text, a.text = [] → a.per_line = false → w.stdinDoc = some text →
        gatePasses a.minlength text = false →
        outRecs (main a w).1 = [])
    ∧ (∀ line, gatePasses a.minlength line = false →
        line ∉ parLines a.minlength w.stdinLines) := by
  refine ⟨?_, ?_, ?_, ?_⟩
  · intro ht hg
    simp [main, hl, hv, ht, handleDirect, hg, outRecs]
  · intro d line hg
    simp [perLineSeqHandle, hg]
  · intro text ht hp hd hg
    simp [main, hl, hv, ht, hp, hd, handleWhole, hg, outRecs]
  · intro line hg hmem
    rw [parLines, List.mem_filterMap] at hmem
    obtain ⟨x, _, hfx⟩ := hmem
    cases x with
    | none => simp at hfx
    | some l =>
      cases hm : a.minlength with
      | none =>
        rw [hm] at hfx
        simp only [Option.some.injEq] at hfx
        subst hfx
        simp [gatePasses, hm] at hg
      | some M =>
        rw [hm] at hfx
        dsimp only at hfx
        by_cases hle : long_enough l M
        · rw [if_pos hle] at hfx
          simp only [Option.some.injEq] at hfx
          subst hfx
          simp [gatePasses, hm, hle] at hg
        · rw [if_neg hle] at hfx
          exact Option.noConfusion hfx

/-- Closed witness for `C3_amended` at `argsC3`/`worldC3`, exercising the
whole-stdin conjunct on the rejected one-character document. -/
theorem C3_amended_witness :
    outRecs (main argsC3 worldC3).1 = [] :=
  (C3_amended argsC3 worldC3 (by decide) (by decide)).2.2.1 [chrA]
    (by decide) (by decide) (by decide) (by decide)

/-- Claim C4 (amended): combining multi-segment mode with per-line mode is
not rejected: no error is reported, stdin is consumed as usual, and the run
behaves exactly as if `--multi` were absent (the flag is silently ignored in
both per-line modes), finishing with exit code 0. -/
theorem C4_amended (a : Args) (w : World)
    (hl : a.list = false)
    (hv : (a.languages.any fun s => !w.validCode s) = false)
    (ht : a.text = []) (hp : a.per_line = true) (_hm : a.multi = true) :
    main a w = main (withMultiOff a) w ∧ (main a w).2 = Exit.code 0 := by
  constructor
  · cases hpar : a.parallel with
    | true => simp [main, hl, hv, ht, hp, hpar, withMultiOff,
        perLineSeqHandle]
    | false => simp [main, hl, hv, ht, hp, hpar, withMultiOff,
        perLineSeqHandle]
  · cases hpar : a.parallel with
    | true => simp [main, hl, hv, ht, hp, hpar]
    | false => simp [main, hl, hv, ht, hp, hpar]

/-- Closed witness for `C4_amended` at `argsC4`/`worldC4`. -/
theorem C4_amended_witness :
    main argsC4 worldC4 = main (withMultiOff argsC4) worldC4
    ∧ (main argsC4 worldC4).2 = Exit.code 0 :=
  C4_amended argsC4 worldC4 (by decide) (by decide) (by decide) (by decide)
    (by decide)

/-- The `Args` value with `per_line` and `parallel` replaced and every other
field unchanged. -/
def withLineFlags (a : Args) (pl par : Bool) : Args :=
  ⟨a.languages, pl, par, a.list, a.all, a.quick, a.multi, a.confidence,
    a.minlength, a.minimum_relative_distance, a.preload, a.delimiter,
    a.text⟩

lemma classifiedUnits_map_out (rs : List OutRec) :
    classifiedUnits (rs.map Event.out) = [] := by
  induction rs with
  | nil => rfl
  | cons r rs ih => simp [classifiedUnits, eventUnits]

lemma classifiedUnits_handleDirect (a : Args) (d : Detector) (x : Text) :
    classifiedUnits (handleDirect a d x).1 =
      if gatePasses a.minlength x then [x] else [] := by
  by_cases hg : gatePasses a.minlength x
  · by_cases hm : a.multi <;>
      simp [handleDirect, hg, hm, classifiedUnits, eventUnits,
        classifiedUnits_map_out]
  · simp [handleDirect, hg, classifiedUnits, eventUnits]

lemma classifiedUnits_handleWhole (a : Args) (d : Detector) (x : Text) :
    classifiedUnits (handleWhole a d x).1 =
      if gatePasses a.minlength x then [x] else [] := by
  by_cases hg : gatePasses a.minlength x
  · by_cases hm : a.multi <;>
      simp [handleWhole, hg, hm, classifiedUnits, eventUnits,
        classifiedUnits_map_out]
  · simp [handleWhole, hg, classifiedUnits, eventUnits]

lemma classifiedUnits_perLineSeqHandle (a : Args) (d : Detector) (l : Text) :
    classifiedUnits (perLineSeqHandle a d l) =
      if gatePasses a.minlength l then [l] else [] := by
  by_cases hg : gatePasses a.minlength l <;>
    simp [perLineSeqHandle, hg, classifiedUnits, eventUnits,
      classifiedUnits_map_out]

lemma handleDirect_no_stdin (a : Args) (d : Detector) (x : Text) :
    ∀ e ∈ (handleDirect a d x).1, isStdinEvent e = false := by
  intro e he
  by_cases hg : gatePasses a.minlength x
  · by_cases hm : a.multi
    · simp [handleDirect, hg, hm] at he
      rcases he with rfl | ⟨r, _, rfl⟩ <;> rfl
    · simp [handleDirect, hg, hm] at he
      rcases he with rfl | ⟨r, _, rfl⟩ <;> rfl
  · simp [handleDirect, hg] at he
    subst he
    rfl

/-- Claim C5: with non-empty positional text arguments the run handles
exactly one text unit, the arguments joined with a single space: the trace
is detector construction followed by the direct-text handler on
`joinArgs a.text`; the unit submitted to the detector is that join (when
the gate passes, and nothing otherwise); flipping `per_line`/`parallel`
changes nothing; and no stdin is ever consumed. -/
theorem C5_direct_text (a : Args) (w : World) (hl : a.list = false)
    (hv : (a.languages.any fun s => !w.validCode s) = false)
    (ht : a.text ≠ []) :
    (main a w).1 =
      Event.detectorBuilt :: (handleDirect a w.detector (joinArgs a.text)).1
    ∧ classifiedUnits (main a w).1 =
        (if gatePasses a.minlength (joinArgs a.text) then [joinArgs a.text]
          else [])
    ∧ (∀ pl par, main (withLineFlags a pl par) w = main a w)
    ∧ (∀ e ∈ (main a w).1, isStdinEvent e = false) := by
  have hmain : (main a w).1 =
      Event.detectorBuilt ::
        (handleDirect a w.detector (joinArgs a.text)).1 := by
    simp [main, hl, hv, ht]
  refine ⟨hmain, ?_, ?_, ?_⟩
  · rw [hmain]
    simpa [classifiedUnits, eventUnits] using
      classifiedUnits_handleDirect a w.detector (joinArgs a.text)
  · intro pl par
    simp [main, hl, hv, ht, withLineFlags, handleDirect]
  · intro e he
    rw [hmain, List.mem_cons] at he
    rcases he with rfl | he
    · rfl
    · exact handleDirect_no_stdin a w.detector (joinArgs a.text) e he

/-- Closed witness for `C5_direct_text`: direct text `a` with `-M 5` and
the line flags raised. -/
theorem C5_direct_text_witness :
    (main argsC5 worldC5).1 =
      Event.detectorBuilt ::
        (handleDirect argsC5 worldC5.detector (joinArgs argsC5.text)).1
    ∧ classifiedUnits (main argsC5 worldC5).1 =
        (if gatePasses argsC5.minlength (joinArgs argsC5.text)
          then [joinArgs argsC5.text] else [])
    ∧ (∀ pl par, main (withLineFlags argsC5 pl par) worldC5 =
        main argsC5 worldC5)
    ∧ (∀ e ∈ (main argsC5 worldC5).1, isStdinEvent e = false) :=
  C5_direct_text argsC5 worldC5 (by decide) (by decide) (by decide)

lemma mem_classifiedUnits (t : Text) (es : List Event) :
    t ∈ classifiedUnits es ↔ ∃ e ∈ es, t ∈ eventUnits e := by
  simp [classifiedUnits, List.mem_flatten]

lemma parLines_gate (m : Option (Fin 256)) (ls : List (Option Text)) :
    ∀ l ∈ parLines m ls, gatePasses m l = true := by
  intro l hl
  rw [parLines, List.mem_filterMap] at hl
  obtain ⟨x, _, hfx⟩ := hl
  cases x with
  | none => simp at hfx
  | some y =>
    cases m with
    | none =>
      dsimp only at hfx
      simp only [Option.some.injEq] at hfx
      subst hfx
      rfl
    | some M =>
      dsimp only at hfx
      by_cases hle : long_enough y M
      · rw [if_pos hle] at hfx
        simp only [Option.some.injEq] at hfx
        subst hfx
        simpa [gatePasses] using hle
      · rw [if_neg hle] at hfx
        exact Option.noConfusion hfx

lemma classifiedUnits_main_gate (a : Args) (w : World) :
    ∀ t ∈ classifiedUnits (main a w).1, gatePasses a.minlength t = true := by
  intro t ht
  by_cases hlist : a.list = true
  · rw [main, if_pos hlist] at ht
    rw [mem_classifiedUnits] at ht
    obtain ⟨e, he, hte⟩ := ht
    simp only [List.mem_map] at he
    obtain ⟨l, _, rfl⟩ := he
    simp [eventUnits] at hte
  by_cases hval : (a.languages.any fun s => !w.validCode s) = true
  · rw [main, if_neg hlist, if_pos hval] at ht
    simp [classifiedUnits] at ht
  by_cases htext : a.text ≠ []
  · rw [main, if_neg hlist, if_neg hval, if_pos htext] at ht
    dsimp only at ht
    rw [mem_classifiedUnits] at ht
    obtain ⟨e, he, hte⟩ := ht
    rw [List.mem_cons] at he
    rcases he with rfl | he
    · simp [eventUnits] at hte
    · have := classifiedUnits_handleDirect a w.detector (joinArgs a.text)
      by_cases hg : gatePasses a.minlength (joinArgs a.text)
      · rw [if_pos hg] at this
        have ht2 : t ∈ classifiedUnits
            (handleDirect a w.detector (joinArgs a.text)).1 :=
          (mem_classifiedUnits t _).mpr ⟨e, he, hte⟩
        rw [this, List.mem_singleton] at ht2
        subst ht2
        exact hg
      · rw [if_neg hg] at this
        have ht2 : t ∈ classifiedUnits
            (handleDirect a w.detector (joinArgs a.text)).1 :=
          (mem_classifiedUnits t _).mpr ⟨e, he, hte⟩
        rw [this] at ht2
        simp at ht2
  by_cases hpp : (a.per_line && a.parallel) = true
  · rw [main, if_neg hlist, if_neg hval, if_neg htext, if_pos hpp] at ht
    dsimp only at ht
    rw [mem_classifiedUnits] at ht
    obtain ⟨e, he, hte⟩ := ht
    simp only [List.mem_cons, List.mem_append] at he
    rcases he with rfl | rfl | rfl | he | he
    · simp [eventUnits] at hte
    · simp [eventUnits] at hte
    · rw [eventUnits] at hte
      exact parLines_gate a.minlength w.stdinLines t hte
    · rcases hws : a.minlength.isSome with _ | _ <;> rw [hws] at he <;>
        simp at he
      subst he
      simp [eventUnits] at hte
    · simp only [List.mem_flatten, List.mem_map] at he
      obtain ⟨l, ⟨p, _, rfl⟩, hel⟩ := he
      simp only [List.mem_map] at hel
      obtain ⟨r, _, rfl⟩ := hel
      simp [eventUnits] at hte
  by_cases hpl : a.per_line = true
  · rw [main, if_neg hlist, if_neg hval, if_neg htext, if_neg hpp,
      if_pos hpl] at ht
    dsimp only at ht
    rw [mem_classifiedUnits] at ht
    obtain ⟨e, he, hte⟩ := ht
    rw [List.mem_cons] at he
    rcases he with rfl | he
    · simp [eventUnits] at hte
    · simp only [List.mem_flatten, List.mem_map] at he
      obtain ⟨l, ⟨x, _, rfl⟩, hel⟩ := he
      rw [List.mem_cons] at hel
      rcases hel with rfl | hel
      · simp [eventUnits] at hte
      · cases x with
        | none => simp at hel
        | some line =>
          have ht2 : t ∈ classifiedUnits (perLineSeqHandle a w.detector
              line) := (mem_classifiedUnits t _).mpr ⟨e, hel, hte⟩
          rw [classifiedUnits_perLineSeqHandle] at ht2
          by_cases hg : gatePasses a.minlength line
          · rw [if_pos hg, List.mem_singleton] at ht2
            subst ht2
            exact hg
          · rw [if_neg hg] at ht2
            simp at ht2
  · rw [main, if_neg hlist, if_neg hval, if_neg htext, if_neg hpp,
      if_neg hpl] at ht
    cases hdoc : w.stdinDoc with
    | none =>
      rw [hdoc] at ht
      simp [classifiedUnits, eventUnits] at ht
    | some text =>
      rw [hdoc] at ht
      dsimp only at ht
      rw [mem_classifiedUnits] at ht
      obtain ⟨e, he, hte⟩ := ht
      simp only [List.mem_cons] at he
      rcases he with rfl | rfl | he
      · simp [eventUnits] at hte
      · simp [eventUnits] at hte
      · have ht2 : t ∈ classifiedUnits (handleWhole a w.detector text).1 :=
          (mem_classifiedUnits t _).mpr ⟨e, he, hte⟩
        rw [classifiedUnits_handleWhole] at ht2
        by_cases hg : gatePasses a.minlength text
        · rw [if_pos hg, List.mem_singleton] at ht2
          subst ht2
          exact hg
        · rw [if_neg hg] at ht2
          simp at ht2

/-- Claim C6: the length gate passes every text when no minimum length is
configured; with minimum `M` it passes a text iff the text has at least `M`
alphabetic characters (`char::is_alphabetic`; digits, punctuation and
whitespace are not alphabetic, so not counted); every text submitted to the
detector in any run passes the gate (so fewer than `M` alphabetic characters
never reach it), and a direct text with exactly `M` alphabetic characters is
submitted. -/
theorem C6_length_gate :
    (∀ text, gatePasses none text = true)
    ∧ (∀ (text : Text) (M : Fin 256),
        long_enough text M = decide ((M : Nat) ≤ alphaCount text))
    ∧ (∀ (a : Args) (w : World) (M : Fin 256), a.minlength = some M →
        ∀ t ∈ classifiedUnits (main a w).1, (M : Nat) ≤ alphaCount t)
    ∧ (∀ (a : Args) (w : World) (M : Fin 256), a.minlength = some M →
        a.list = false →
        (a.languages.any fun s => !w.validCode s) = false →
        a.text ≠ [] → alphaCount (joinArgs a.text) = (M : Nat) →
        joinArgs a.text ∈ classifiedUnits (main a w).1) := by
  refine ⟨fun _ => rfl, fun text M => rfl, ?_, ?_⟩
  · intro a w M hM t ht
    have := classifiedUnits_main_gate a w t ht
    rw [hM] at this
    simpa [gatePasses, long_enough, alphaCount] using this
  · intro a w M hM hl hv ht hcount
    have hg : gatePasses a.minlength (joinArgs a.text) = true := by
      rw [hM]
      simp [gatePasses, long_enough, alphaCount] at hcount ⊢
      omega
    have hl2 : ¬(a.list = true) := by simp [hl]
    have hv2 : ¬((a.languages.any fun s => !w.validCode s) = true) := by
      simp [hv]
    rw [main, if_neg hl2, if_neg hv2, if_pos ht]
    dsimp only
    rw [mem_classifiedUnits]
    refine ⟨Event.classify (joinArgs a.text), ?_, by simp [eventUnits]⟩
    rw [List.mem_cons]
    right
    rw [handleDirect, if_pos hg]
    by_cases hm : a.multi = true <;> simp [hm]

/-- Closed witness for `C6_length_gate`: a direct one-character text with
`-M 1` is submitted to the detector. -/
theorem C6_length_gate_witness :
    joinArgs argsC6.text ∈ classifiedUnits (main argsC6 worldC5).1 :=
  C6_length_gate.2.2.2 argsC6 worldC5 1 (by decide) (by decide) (by decide)
    (by decide) (by decide)

lemma insertByOrd_length (l : LanguageInfo) (xs : List LanguageInfo) :
    (insertByOrd l xs).length = xs.length + 1 := by
  induction xs with
  | nil => rfl
  | cons x xs ih => by_cases h : l.ord ≤ x.ord <;> simp [insertByOrd, h, ih]

lemma sortLangs_length (xs : List LanguageInfo) :
    (sortLangs xs).length = xs.length := by
  induction xs with
  | nil => rfl
  | cons x xs ih => simp [sortLangs, insertByOrd_length, ih]

/-- Claim C7: with `--list` set the run prints exactly one `{code} - {name}`
record per supported language (the sorted language table), exits with code
0, and does nothing else: the detector is never constructed, stdin is never
read, and nothing is classified — regardless of every other flag. -/
theorem C7_list_mode (a : Args) (w : World) (h : a.list = true) :
    (main a w).1 = (sortLangs w.allLanguages).map
        (fun l => Event.out (OutRec.listLine l.code l.name))
    ∧ (main a w).1.length = w.allLanguages.length
    ∧ (main a w).2 = Exit.code 0
    ∧ Event.detectorBuilt ∉ (main a w).1
    ∧ (∀ e ∈ (main a w).1, isStdinEvent e = false)
    ∧ classifiedUnits (main a w).1 = [] := by
  have hmain : main a w = ((sortLangs w.allLanguages).map
      (fun l => Event.out (OutRec.listLine l.code l.name)), Exit.code 0) :=
    by rw [main, if_pos h]
  refine ⟨by rw [hmain], ?_, by rw [hmain], ?_, ?_, ?_⟩
  · rw [hmain]
    simp [sortLangs_length]
  · rw [hmain]
    intro hmem
    simp at hmem
  · intro e he
    rw [hmain] at he
    simp only [List.mem_map] at he
    obtain ⟨l, _, rfl⟩ := he
    rfl
  · rw [hmain]
    rw [List.eq_nil_iff_forall_not_mem]
    intro t ht
    rw [mem_classifiedUnits] at ht
    obtain ⟨e, he, hte⟩ := ht
    simp only [List.mem_map] at he
    obtain ⟨l, _, rfl⟩ := he
    simp [eventUnits] at hte

/-- Arguments with `--list` set (other flags raised to show independence). -/
def argsC7 : Args :=
  ⟨[], true, true, true, true, false, true, none, some 3, none, false,
    "\t", []⟩

/-- Environment for `argsC7`: two supported languages, listed out of
order. -/
def worldC7 : World :=
  ⟨detDe, [⟨2, "nl", "Dutch"⟩, ⟨1, "de", "German"⟩], fun _ => true,
    [some [chrA]], some [chrA]⟩

/-- Closed witness for `C7_list_mode` at `argsC7`/`worldC7`. -/
theorem C7_list_mode_witness :
    (main argsC7 worldC7).1 = (sortLangs worldC7.allLanguages).map
        (fun l => Event.out (OutRec.listLine l.code l.name))
    ∧ (main argsC7 worldC7).1.length = worldC7.allLanguages.length
    ∧ (main argsC7 worldC7).2 = Exit.code 0
    ∧ Event.detectorBuilt ∉ (main argsC7 worldC7).1
    ∧ (∀ e ∈ (main argsC7 worldC7).1, isStdinEvent e = false)
    ∧ classifiedUnits (main argsC7 worldC7).1 = [] :=
  C7_list_mode argsC7 worldC7 (by decide)

lemma isOutEvent_mem_print_flatten (ls : List (Text × List ConfidenceEntry))
    (t : Option Rat) (all : Bool) :
    ∀ e ∈ (ls.map fun p =>
        (print_line_with_confidence_values p.1 p.2 t all).map
          Event.out).flatten, isOutEvent e = true := by
  intro e he
  simp only [List.mem_flatten, List.mem_map] at he
  obtain ⟨l, ⟨p, _, rfl⟩, hel⟩ := he
  simp only [List.mem_map] at hel
  obtain ⟨r, _, rfl⟩ := hel
  rfl

/-- Claim C9: in per-line parallel mode the stderr note is emitted exactly
once iff a minimum length is configured — regardless of whether any line
actually fell below it — and it is emitted only after stdin has been fully
read and the batch classification call has been made: the trace is detector
construction, the full stdin read, the batch call, then the note (iff
`minlength` is set), then only stdout records. -/
theorem C9_parallel_warning (a : Args) (w : World) (hl : a.list = false)
    (hv : (a.languages.any fun s => !w.validCode s) = false)
    (ht : a.text = []) (hp : a.per_line = true) (hpar : a.parallel = true) :
    (∃ outs, (∀ e ∈ outs, isOutEvent e = true) ∧
      (main a w).1 =
        Event.detectorBuilt :: Event.readAllStdin ::
          Event.batchCall (parLines a.minlength w.stdinLines) ::
            ((if a.minlength.isSome then [Event.warn] else []) ++ outs))
    ∧ (main a w).1.count Event.warn =
        (if a.minlength.isSome then 1 else 0) := by
  have hmain : (main a w).1 =
      Event.detectorBuilt :: Event.readAllStdin ::
        Event.batchCall (parLines a.minlength w.stdinLines) ::
          ((if a.minlength.isSome then [Event.warn] else []) ++
            (((parLines a.minlength w.stdinLines).zip
              (w.detector.compute_language_confidence_values_in_parallel
                (parLines a.minlength w.stdinLines))).map fun p =>
              (print_line_with_confidence_values p.1 p.2 a.confidence
                a.all).map Event.out).flatten) := by
    simp [main, hl, hv, ht, hp, hpar]
  constructor
  · exact ⟨_, isOutEvent_mem_print_flatten _ _ _, hmain⟩
  · rw [hmain]
    have houts : ∀ e ∈ (((parLines a.minlength w.stdinLines).zip
        (w.detector.compute_language_confidence_values_in_parallel
          (parLines a.minlength w.stdinLines))).map fun p =>
        (print_line_with_confidence_values p.1 p.2 a.confidence
          a.all).map Event.out).flatten, isOutEvent e = true :=
      isOutEvent_mem_print_flatten _ _ _
    have hcount0 : (((parLines a.minlength w.stdinLines).zip
        (w.detector.compute_language_confidence_values_in_parallel
          (parLines a.minlength w.stdinLines))).map fun p =>
        (print_line_with_confidence_values p.1 p.2 a.confidence
          a.all).map Event.out).flatten.count Event.warn = 0 := by
      rw [List.count_eq_zero]
      intro hmem
      have := houts _ hmem
      simp [isOutEvent] at this
    cases hws : a.minlength.isSome with
    | true => simp [List.count_cons, List.count_append, hcount0]
    | false => simp [List.count_cons, List.count_append, hcount0]

/-- Arguments for a per-line parallel run with `-M 3`. -/
def argsC9 : Args :=
  ⟨[], true, true, false, false, false, false, none, some 3, none, false,
    "\t", []⟩

/-- Closed witness for `C9_parallel_warning` at `argsC9`/`worldC5` (the one
stdin line `a` is below the minimum, so the batch is empty — the note is
still emitted exactly once, after the read and the batch call). -/
theorem C9_parallel_warning_witness :
    (∃ outs, (∀ e ∈ outs, isOutEvent e = true) ∧
      (main argsC9 worldC5).1 =
        Event.detectorBuilt :: Event.readAllStdin ::
          Event.batchCall (parLines argsC9.minlength worldC5.stdinLines) ::
            ((if argsC9.minlength.isSome then [Event.warn] else []) ++
              outs))
    ∧ (main argsC9 worldC5).1.count Event.warn =
        (if argsC9.minlength.isSome then 1 else 0) :=
  C9_parallel_warning argsC9 worldC5 (by decide) (by decide) (by decide)
    (by decide) (by decide)

/-- Claim C10: `minlength` is `Option<u8>` at the public interface, so any
configured minimum is at most 255 (larger values are unrepresentable, which
models `clap` rejecting them at argument parsing), and therefore any text
with at least 255 alphabetic characters passes the length gate under every
accepted configuration. -/
theorem C10_minlength_bound (a : Args) (text : Text)
    (h : 255 ≤ alphaCount text) :
    (∀ M : Fin 256, a.minlength = some M → (M : Nat) ≤ 255)
    ∧ gatePasses a.minlength text = true := by
  constructor
  · intro M _
    exact Nat.le_of_lt_succ M.isLt
  · cases hm : a.minlength with
    | none => rfl
    | some M =>
      simp only [gatePasses, long_enough, ge_iff_le, decide_eq_true_eq]
      exact le_trans (Nat.le_of_lt_succ M.isLt) h

/-- A text of 255 alphabetic characters. -/
def text255 : Text := List.replicate 255 chrA

set_option maxRecDepth 8000 in
/-- Closed witness for `C10_minlength_bound`: `text255` passes the gate of
`argsC3` (`-M 5`). -/
theorem C10_minlength_bound_witness :
    (∀ M : Fin 256, argsC3.minlength = some M → (M : Nat) ≤ 255)
    ∧ gatePasses argsC3.minlength text255 = true :=
  C10_minlength_bound argsC3 text255 (by decide)

/-- Claim C8: under the precondition that every segment has
`0 ≤ start ≤ end ≤ len(text)` with both offsets on UTF-8 character
boundaries, the string slicing in `print_with_offset` never panics and
exactly one `(start, end, code, substring)` record is emitted per
segment. -/
theorem C8_offsets_safe (results : List DetectionResult) (text : Text)
    (h : ∀ r ∈ results, r.start_index ≤ r.end_index ∧
      r.end_index ≤ byteLen text ∧
      isCharBoundary text r.start_index = true ∧
      isCharBoundary text r.end_index = true) :
    (print_with_offset results text).2 = false
    ∧ (print_with_offset results text).1 = results.map fun r =>
        OutRec.offsetRec r.start_index r.end_index r.lang
          ((((text.map fun c => c.bytes).flatten).drop r.start_index).take
            (r.end_index - r.start_index)) := by
  induction results with
  | nil => exact ⟨rfl, rfl⟩
  | cons r rest ih =>
    have hr := h r (List.mem_cons_self r rest)
    have hrest := fun r2 hr2 => h r2 (List.mem_cons_of_mem r hr2)
    have hslice : strSlice text r.start_index r.end_index =
        some ((((text.map fun c => c.bytes).flatten).drop
          r.start_index).take (r.end_index - r.start_index)) := by
      rw [strSlice, if_pos ⟨hr.1, hr.2.1, hr.2.2.1, hr.2.2.2⟩]
    obtain ⟨ih1, ih2⟩ := ih hrest
    refine ⟨?_, ?_⟩ <;> simp only [print_with_offset, hslice, List.map_cons]
    · exact ih1
    · rw [ih2]

/-- The two-character text `ab` (two one-byte alphabetic characters). -/
def textAB : Text := [⟨[97], true⟩, ⟨[98], true⟩]

/-- Closed witness for `C8_offsets_safe`: segments `(0,1,en)` and
`(1,2,fr)` over `ab` are sliced without panic into one record each. -/
theorem C8_offsets_safe_witness :
    (print_with_offset [⟨0, 1, "en"⟩, ⟨1, 2, "fr"⟩] textAB).2 = false
    ∧ (print_with_offset [⟨0, 1, "en"⟩, ⟨1, 2, "fr"⟩] textAB).1 =
        [(⟨0, 1, "en"⟩ : DetectionResult),
          (⟨1, 2, "fr"⟩ : DetectionResult)].map fun r =>
          OutRec.offsetRec r.start_index r.end_index r.lang
            ((((textAB.map fun c => c.bytes).flatten).drop
              r.start_index).take (r.end_index - r.start_index)) :=
  C8_offsets_safe [⟨0, 1, "en"⟩, ⟨1, 2, "fr"⟩] textAB (by decide)

end LinguaCli
